import Mathlib

/-!
Shallow embedding of the futarchy pallet (src/pallets/futarchy/src/lib.rs):
a registry of prediction markets with two dispatchable operations,
`create_market` and `resolve_market`, backed by a map `Markets` from a hash
identifier to a `PredictionMarket` record plus a scalar counter `MarketCount`.

Modelling choices:
- `AccountId`, `Balance`, `BlockNumber` and `Hash` are all modelled as `Nat`
  (the pallet is generic in them; `Balance` is non-negative by construction).
- The hash `T::Hashing::hash` over the SCALE encoding of the tuple
  `(block_number, who, market_type)` is modelled as an abstract function
  `hfn : Nat → Nat → MarketType → Nat` carried in the configuration; the
  code's identifier is a pure function of that tuple, and injectivity of
  the hash-of-encoding is an assumption stated where a claim needs it.
- `T::Currency::reserve` (ReservableCurrency) moves the deposit from the
  caller's free balance to its reserved balance and fails when the free
  balance is insufficient; the ledger is part of the explicit state.
- A dispatchable returns `Except Error FutarchyState`; the host runtime's
  all-or-nothing semantics (an error discards every attempted change) is
  `runOp`, which keeps the pre-state on an error.
- Faithfully to the source, `create_market` never writes `MarketCount`:
  the source inserts into `Markets` and emits the event but contains no
  increment of the counter.
-/

namespace Futarchy

/-- Market Types of the pallet: `Binary | Scalar | Categorical`. -/
inductive MarketType where
  | Binary
  | Scalar
  | Categorical
deriving DecidableEq, Repr

/-- Market Status of the pallet: `Created | Active | Resolved | Cancelled`. -/
inductive MarketStatus where
  | Created
  | Active
  | Resolved
  | Cancelled
deriving DecidableEq, Repr

/-- Prediction Market record, as the source declares it. -/
structure PredictionMarket where
  id : Nat
  creator : Nat
  market_type : MarketType
  status : MarketStatus
  total_liquidity : Nat
  creation_block : Nat
  resolution_block : Option Nat
deriving DecidableEq, Repr

/-- Errors declared by the pallet. -/
inductive Error where
  | MarketDoesNotExist
  | MarketNotResolvable
  | InsufficientFunds
deriving DecidableEq, Repr

/-- Events declared by the pallet. -/
inductive Event where
  | MarketCreated (who : Nat) (market_id : Nat)
  | MarketResolved (who : Nat) (market_id : Nat)
deriving DecidableEq, Repr

/-- Whole observable state: the `Markets` map, the `MarketCount` scalar, the
external reservable-currency ledger (free and reserved balances per account)
and the emitted event log. -/
structure FutarchyState where
  markets : Nat → Option PredictionMarket
  marketCount : Nat
  free : Nat → Nat
  reserved : Nat → Nat
  events : List Event

/-- Pallet configuration: the `MarketCreationDeposit` constant and the hash
function applied to the encoded `(block_number, who, market_type)` tuple. -/
structure Config where
  deposit : Nat
  hfn : Nat → Nat → MarketType → Nat

/-- Model of `T::Currency::reserve(&who, amount)`: moves `amount` from the
free to the reserved balance of `who`, failing when the free balance is
below `amount`. -/
def reserve (who amount : Nat) (s : FutarchyState) : Except Error FutarchyState :=
  if amount ≤ s.free who then
    Except.ok { s with
      free := fun a => if a = who then s.free a - amount else s.free a
      reserved := fun a => if a = who then s.reserved a + amount else s.reserved a }
  else
    Except.error Error.InsufficientFunds

/-- The derived market identifier:
`(block_number, who, market_type).using_encoded(T::Hashing::hash)`. -/
def market_id (cfg : Config) (blk who : Nat) (mt : MarketType) : Nat :=
  cfg.hfn blk who mt

/-- The record `create_market` constructs. -/
def newMarket (cfg : Config) (blk who : Nat) (mt : MarketType) : PredictionMarket :=
  { id := market_id cfg blk who mt
    creator := who
    market_type := mt
    status := MarketStatus.Created
    total_liquidity := 0
    creation_block := blk
    resolution_block := none }

/-- `Markets::<T>::insert(k, m)` (an upsert on the map). -/
def insertMarket (k : Nat) (m : PredictionMarket) (s : FutarchyState) : FutarchyState :=
  { s with markets := fun j => if j = k then some m else s.markets j }

/-- The dispatchable `create_market(origin, market_type)`: reserve the
deposit, derive the identifier, construct and insert the record, emit
`MarketCreated`. As in the source, `MarketCount` is not written. -/
def create_market (cfg : Config) (blk who : Nat) (mt : MarketType)
    (s : FutarchyState) : Except Error FutarchyState :=
  match reserve who cfg.deposit s with
  | Except.error e => Except.error e
  | Except.ok s1 =>
    let mid := market_id cfg blk who mt
    let market := newMarket cfg blk who mt
    let s2 := insertMarket mid market s1
    Except.ok { s2 with events := s2.events ++ [Event.MarketCreated who mid] }

/-- The dispatchable `resolve_market(origin, market_id)`: look the record up
(else `MarketDoesNotExist`), require `status == Active` (else
`MarketNotResolvable`), set `status = Resolved` and
`resolution_block = Some(block_number)`, write back, emit `MarketResolved`. -/
def resolve_market (blk who mid : Nat) (s : FutarchyState) : Except Error FutarchyState :=
  match s.markets mid with
  | none => Except.error Error.MarketDoesNotExist
  | some market =>
    if market.status = MarketStatus.Active then
      let market2 := { market with
        status := MarketStatus.Resolved
        resolution_block := some blk }
      let s2 := insertMarket mid market2 s
      Except.ok { s2 with events := s2.events ++ [Event.MarketResolved who mid] }
    else
      Except.error Error.MarketNotResolvable

/-- The read-only query `market_count()` (reads the `MarketCount` slot). -/
def market_count (s : FutarchyState) : Nat :=
  s.marketCount

/-- One transaction directed at this pallet. `blk` is the current block
height supplied by the host runtime, `who` the authenticated caller. -/
inductive Op where
  | create (blk who : Nat) (mt : MarketType)
  | resolve (blk who mid : Nat)
deriving DecidableEq, Repr

/-- Dispatch of one transaction to its handler. -/
def dispatch (cfg : Config) (op : Op) (s : FutarchyState) : Except Error FutarchyState :=
  match op with
  | Op.create blk who mt => create_market cfg blk who mt s
  | Op.resolve blk who mid => resolve_market blk who mid s

/-- Host-runtime semantics of one transaction: on success the new state, on
an error the pre-state is kept unchanged (atomic all-or-nothing). -/
def runOp (cfg : Config) (s : FutarchyState) (op : Op) : FutarchyState × Option Error :=
  match dispatch cfg op s with
  | Except.ok s2 => (s2, none)
  | Except.error e => (s, some e)

/-- Sequential execution of a list of transactions. -/
def runOps (cfg : Config) (s : FutarchyState) : List Op → FutarchyState
  | [] => s
  | op :: rest => runOps cfg (runOp cfg s op).1 rest

/-- Genesis state: empty `Markets` map, `MarketCount = 0`, an arbitrary
external free-balance ledger, nothing reserved, no events. -/
def initState (free0 : Nat → Nat) : FutarchyState :=
  { markets := fun _ => none
    marketCount := 0
    free := free0
    reserved := fun _ => 0
    events := [] }

/-- A state is reachable when some sequence of `create_market` and
`resolve_market` transactions leads to it from a genesis state. -/
def Reachable (cfg : Config) (s : FutarchyState) : Prop :=
  ∃ free0 ops, runOps cfg (initState free0) ops = s

/-- The store invariant establishable from genesis: every stored record has
`status = Created`, `resolution_block = none`, and an `id` field equal to
its key. -/
def goodState (s : FutarchyState) : Prop :=
  ∀ k m, s.markets k = some m →
    m.status = MarketStatus.Created ∧ m.resolution_block = none ∧ m.id = k

/-- The status-transition event claim P3 singles out: some reachable state
holds a `Created` market that one more transaction steps to `Resolved`. -/
def createdToResolvedReached (cfg : Config) : Prop :=
  ∃ s op k m m2, Reachable cfg s ∧
    s.markets k = some m ∧ m.status = MarketStatus.Created ∧
    (runOp cfg s op).1.markets k = some m2 ∧ m2.status = MarketStatus.Resolved

/-- Injective code of a `MarketType`, used by the concrete witness hash. -/
def typeCode : MarketType → Nat
  | MarketType.Binary => 0
  | MarketType.Scalar => 1
  | MarketType.Categorical => 2

/-- A concrete injective hash for witnesses, via Cantor-style pairing. -/
def hfnW : Nat → Nat → MarketType → Nat :=
  fun b c t => Nat.pair b (Nat.pair c (typeCode t))

/-- Concrete witness configuration: deposit 10, the pairing hash. -/
def cfgW : Config :=
  { deposit := 10, hfn := hfnW }

/-- Concrete witness ledger: every account starts with free balance 100. -/
def freeW : Nat → Nat := fun _ => 100

/-- Concrete genesis state for witnesses. -/
def stW0 : FutarchyState := initState freeW

/-- The identifier of the witness market (block 10, creator 0, Binary). -/
def idW : Nat := market_id cfgW 10 0 MarketType.Binary

/-- The witness market record. -/
def marketW : PredictionMarket := newMarket cfgW 10 0 MarketType.Binary

/-- State after one successful creation (block 10, creator 0, Binary). -/
def stW1 : FutarchyState := (runOp cfgW stW0 (Op.create 10 0 MarketType.Binary)).1

/-- An (unreachable, hand-built) state holding an `Active` market at key 7,
used to witness the behaviour of `resolve_market` on arbitrary states. -/
def mActive : PredictionMarket :=
  { id := 7
    creator := 1
    market_type := MarketType.Binary
    status := MarketStatus.Active
    total_liquidity := 0
    creation_block := 3
    resolution_block := none }

/-- The hand-built store holding `mActive` at key 7. -/
def stActive : FutarchyState :=
  { markets := fun k => if k = 7 then some mActive else none
    marketCount := 0
    free := fun _ => 0
    reserved := fun _ => 0
    events := [] }

/-- Result state of successfully resolving `mActive` at block 5 by caller 2. -/
def stActiveRes : FutarchyState := (runOp cfgW stActive (Op.resolve 5 2 7)).1

/-- The state a successful `create_market` produces, written out field by
field: the new record sits at its identifier, the ledger moved the deposit
from free to reserved, the event was appended, `MarketCount` untouched. -/
def createdState (cfg : Config) (blk who : Nat) (mt : MarketType)
    (s : FutarchyState) : FutarchyState :=
  { markets := fun j => if j = market_id cfg blk who mt
        then some (newMarket cfg blk who mt) else s.markets j
    marketCount := s.marketCount
    free := fun a => if a = who then s.free a - cfg.deposit else s.free a
    reserved := fun a => if a = who then s.reserved a + cfg.deposit else s.reserved a
    events := s.events ++ [Event.MarketCreated who (market_id cfg blk who mt)] }

/-- The state a successful `resolve_market` produces from record `m` at key
`mid`: only that record's `status` and `resolution_block` change, plus the
appended event. -/
def resolvedState (blk who mid : Nat) (m : PredictionMarket)
    (s : FutarchyState) : FutarchyState :=
  { markets := fun j => if j = mid
        then some { m with status := MarketStatus.Resolved,
                           resolution_block := some blk }
        else s.markets j
    marketCount := s.marketCount
    free := s.free
    reserved := s.reserved
    events := s.events ++ [Event.MarketResolved who mid] }

theorem create_market_of_le {cfg : Config} {blk who : Nat} {mt : MarketType}
    {s : FutarchyState} (h : cfg.deposit ≤ s.free who) :
    create_market cfg blk who mt s = Except.ok (createdState cfg blk who mt s) := by
  simp [create_market, reserve, h, insertMarket, createdState]

theorem create_market_of_lt {cfg : Config} {blk who : Nat} {mt : MarketType}
    {s : FutarchyState} (h : ¬ cfg.deposit ≤ s.free who) :
    create_market cfg blk who mt s = Except.error Error.InsufficientFunds := by
  simp [create_market, reserve, h]

theorem resolve_market_of_none {blk who mid : Nat} {s : FutarchyState}
    (h : s.markets mid = none) :
    resolve_market blk who mid s = Except.error Error.MarketDoesNotExist := by
  simp [resolve_market, h]

theorem resolve_market_of_notActive {blk who mid : Nat} {s : FutarchyState}
    {m : PredictionMarket} (h : s.markets mid = some m)
    (ha : m.status ≠ MarketStatus.Active) :
    resolve_market blk who mid s = Except.error Error.MarketNotResolvable := by
  simp [resolve_market, h, ha]

theorem resolve_market_of_active {blk who mid : Nat} {s : FutarchyState}
    {m : PredictionMarket} (h : s.markets mid = some m)
    (ha : m.status = MarketStatus.Active) :
    resolve_market blk who mid s = Except.ok (resolvedState blk who mid m s) := by
  simp [resolve_market, h, ha, insertMarket, resolvedState]

theorem create_market_ok_elim {cfg : Config} {blk who : Nat} {mt : MarketType}
    {s s2 : FutarchyState} (h : create_market cfg blk who mt s = Except.ok s2) :
    cfg.deposit ≤ s.free who ∧ s2 = createdState cfg blk who mt s := by
  by_cases hle : cfg.deposit ≤ s.free who
  · rw [create_market_of_le hle] at h
    exact ⟨hle, (Except.ok.inj h).symm⟩
  · rw [create_market_of_lt hle] at h
    exact absurd h (by simp)

theorem resolve_market_ok_elim {blk who mid : Nat} {s s2 : FutarchyState}
    (h : resolve_market blk who mid s = Except.ok s2) :
    ∃ m, s.markets mid = some m ∧ m.status = MarketStatus.Active ∧
      s2 = resolvedState blk who mid m s := by
  rcases hm : s.markets mid with _ | m
  · rw [resolve_market_of_none hm] at h
    exact absurd h (by simp)
  · by_cases ha : m.status = MarketStatus.Active
    · rw [resolve_market_of_active hm ha] at h
      exact ⟨m, rfl, ha, (Except.ok.inj h).symm⟩
    · rw [resolve_market_of_notActive hm ha] at h
      exact absurd h (by simp)

theorem goodState_initState (f : Nat → Nat) : goodState (initState f) := by
  intro k m hm
  simp [initState] at hm

theorem goodState_createdState {cfg : Config} {blk who : Nat} {mt : MarketType}
    {s : FutarchyState} (hs : goodState s) :
    goodState (createdState cfg blk who mt s) := by
  intro k m hm
  simp only [createdState] at hm
  by_cases hk : k = market_id cfg blk who mt
  · rw [if_pos hk] at hm
    cases Option.some.inj hm
    exact ⟨rfl, rfl, hk.symm⟩
  · rw [if_neg hk] at hm
    exact hs k m hm

theorem resolve_fails_of_goodState {s : FutarchyState} (hs : goodState s)
    (blk who mid : Nat) :
    ∃ e, resolve_market blk who mid s = Except.error e ∧
      (e = Error.MarketDoesNotExist ∨ e = Error.MarketNotResolvable) := by
  rcases hm : s.markets mid with _ | m
  · exact ⟨Error.MarketDoesNotExist, resolve_market_of_none hm, Or.inl rfl⟩
  · have hc : m.status = MarketStatus.Created := (hs mid m hm).1
    have ha : m.status ≠ MarketStatus.Active := by
      rw [hc]
      intro hcontra
      cases hcontra
    exact ⟨Error.MarketNotResolvable, resolve_market_of_notActive hm ha, Or.inr rfl⟩

theorem runOp_resolve_of_goodState {cfg : Config} {s : FutarchyState}
    (hs : goodState s) (blk who mid : Nat) :
    (runOp cfg s (Op.resolve blk who mid)).1 = s := by
  obtain ⟨e, he, _⟩ := resolve_fails_of_goodState hs blk who mid
  simp [runOp, dispatch, he]

theorem goodState_runOp {cfg : Config} (op : Op) {s : FutarchyState}
    (hs : goodState s) : goodState ((runOp cfg s op).1) := by
  cases op with
  | create blk who mt =>
    by_cases hle : cfg.deposit ≤ s.free who
    · rw [runOp, dispatch, create_market_of_le hle]
      exact goodState_createdState hs
    · rw [runOp, dispatch, create_market_of_lt hle]
      exact hs
  | resolve blk who mid =>
    rw [runOp_resolve_of_goodState hs]
    exact hs

theorem goodState_runOps {cfg : Config} (ops : List Op) {s : FutarchyState}
    (hs : goodState s) : goodState (runOps cfg s ops) := by
  induction ops generalizing s with
  | nil => exact hs
  | cons op rest ih => exact ih (goodState_runOp op hs)

theorem goodState_of_reachable {cfg : Config} {s : FutarchyState}
    (h : Reachable cfg s) : goodState s := by
  obtain ⟨f, ops, hrun⟩ := h
  rw [← hrun]
  exact goodState_runOps ops (goodState_initState f)

theorem status_preserved_runOp {cfg : Config} (op : Op) {s : FutarchyState}
    (hs : goodState s) {k : Nat} {m : PredictionMarket}
    (hm : s.markets k = some m) :
    ∃ m2, (runOp cfg s op).1.markets k = some m2 ∧ m2.status = m.status := by
  have hc : m.status = MarketStatus.Created := (hs k m hm).1
  cases op with
  | create blk who mt =>
    by_cases hle : cfg.deposit ≤ s.free who
    · rw [runOp, dispatch, create_market_of_le hle]
      by_cases hk : k = market_id cfg blk who mt
      · refine ⟨newMarket cfg blk who mt, ?_, ?_⟩
        · simp [createdState, hk]
        · rw [hc]
          rfl
      · exact ⟨m, by simp [createdState, hk, hm], rfl⟩
    · rw [runOp, dispatch, create_market_of_lt hle]
      exact ⟨m, hm, rfl⟩
  | resolve blk who mid =>
    rw [runOp_resolve_of_goodState hs]
    exact ⟨m, hm, rfl⟩

theorem reachable_stW1 : Reachable cfgW stW1 :=
  ⟨freeW, [Op.create 10 0 MarketType.Binary], rfl⟩

/-- C1: the claim says every successful `create_market` increases
`market_count()` by exactly 1; the code never writes `MarketCount`. This
theorem evaluates the code at the failing input: from genesis, a
`create_market` at block 10 by account 0 succeeds and inserts the record,
yet `market_count()` stays 0 instead of becoming 1. -/
theorem C1_market_count_never_incremented :
    create_market cfgW 10 0 MarketType.Binary stW0 = Except.ok stW1 ∧
    stW1.markets idW = some marketW ∧
    market_count stW0 = 0 ∧
    market_count stW1 = 0 := by
  refine ⟨rfl, ?_, rfl, rfl⟩
  decide

/-- C2: `resolve_market(id)` fails with `MarketDoesNotExist` iff no record
with key `id` is stored, and, when a record exists, fails with
`MarketNotResolvable` iff its status is `Created`, `Resolved` or
`Cancelled` (not exactly `Active`); in particular an already-`Resolved`
market deterministically fails with `MarketNotResolvable`. -/
theorem C2_resolve_market_error_conditions (blk who mid : Nat) (s : FutarchyState) :
    (resolve_market blk who mid s = Except.error Error.MarketDoesNotExist ↔
      s.markets mid = none) ∧
    ∀ m, s.markets mid = some m →
      (resolve_market blk who mid s = Except.error Error.MarketNotResolvable ↔
        (m.status = MarketStatus.Created ∨ m.status = MarketStatus.Resolved ∨
         m.status = MarketStatus.Cancelled)) := by
  constructor
  · constructor
    · intro h
      rcases hm : s.markets mid with _ | m
      · rfl
      · exfalso
        by_cases ha : m.status = MarketStatus.Active
        · rw [resolve_market_of_active hm ha] at h
          exact absurd h (by simp)
        · rw [resolve_market_of_notActive hm ha] at h
          exact absurd (Except.error.inj h) (by simp)
    · intro h
      exact resolve_market_of_none h
  · intro m hm
    constructor
    · intro h
      by_cases ha : m.status = MarketStatus.Active
      · rw [resolve_market_of_active hm ha] at h
        exact absurd h (by simp)
      · cases hs : m.status with
        | Created => exact Or.inl rfl
        | Active => exact absurd hs ha
        | Resolved => exact Or.inr (Or.inl rfl)
        | Cancelled => exact Or.inr (Or.inr rfl)
    · intro h
      have ha : m.status ≠ MarketStatus.Active := by
        rcases h with h | h | h <;> rw [h] <;> intro hc <;> cases hc
      exact resolve_market_of_notActive hm ha

/-- C3: `create_market` inserts only after the deposit reservation
succeeded (a successful call implies the reservation's precondition held
and its ledger effect is in the result), and when the reservation fails the
call returns `InsufficientFunds` and the store — records and count — is
unchanged. -/
theorem C3_deposit_gating (cfg : Config) (blk who : Nat) (mt : MarketType)
    (s : FutarchyState) :
    (∀ s2, create_market cfg blk who mt s = Except.ok s2 →
       cfg.deposit ≤ s.free who ∧
       s2.reserved who = s.reserved who + cfg.deposit ∧
       s2.free who = s.free who - cfg.deposit) ∧
    (¬ cfg.deposit ≤ s.free who →
       create_market cfg blk who mt s = Except.error Error.InsufficientFunds ∧
       (runOp cfg s (Op.create blk who mt)).1.markets = s.markets ∧
       market_count (runOp cfg s (Op.create blk who mt)).1 = market_count s) := by
  constructor
  · intro s2 h
    obtain ⟨hle, rfl⟩ := create_market_ok_elim h
    exact ⟨hle, by simp [createdState], by simp [createdState]⟩
  · intro hlt
    have he : create_market cfg blk who mt s = Except.error Error.InsufficientFunds :=
      create_market_of_lt hlt
    refine ⟨he, ?_, ?_⟩ <;> rw [runOp, dispatch, he]

/-- C4 counterexample: the claim asserts that the transition
`Created → Resolved` is reachable under this core; it is not. No reachable
state holds a `Created` market that one more operation steps to `Resolved`,
because `resolve_market` requires status `Active` and nothing ever
produces `Active`. -/
theorem C4_counterexample : ¬ createdToResolvedReached cfgW := by
  rintro ⟨s, op, k, m, m2, hreach, hm, hcreated, hm2, hres⟩
  have hs := goodState_of_reachable hreach
  obtain ⟨m3, hm3, hst⟩ := status_preserved_runOp op hs hm
  rw [hm2] at hm3
  cases Option.some.inj hm3
  rw [hres, hcreated] at hst
  exact absurd hst (by decide)

/-- C4 amended: for any market, over any sequence of operations of this
core, the observed status is constantly `Created` — trivially a prefix of
`Created → Active → Resolved` and of `Created → Active → Cancelled`, and it
never reverts — and no status transition at all (in particular not
`Created → Resolved`) is reachable, since `resolve_market` demands status
`Active`, which no operation produces. -/
theorem C4_amended_status_never_changes (cfg : Config) (s : FutarchyState)
    (h : Reachable cfg s) (op : Op) (k : Nat) (m : PredictionMarket)
    (hm : s.markets k = some m) :
    m.status = MarketStatus.Created ∧
    ∃ m2, (runOp cfg s op).1.markets k = some m2 ∧ m2.status = m.status := by
  have hs := goodState_of_reachable h
  exact ⟨(hs k m hm).1, status_preserved_runOp op hs hm⟩

/-- Witness for the amended C4: the market created at block 10 by account 0
is `Created`, and an attempted resolve leaves its status unchanged. -/
theorem C4_amended_witness :
    marketW.status = MarketStatus.Created ∧
    ∃ m2, (runOp cfgW stW1 (Op.resolve 11 0 idW)).1.markets idW = some m2 ∧
      m2.status = marketW.status :=
  C4_amended_status_never_changes cfgW stW1 reachable_stW1 (Op.resolve 11 0 idW)
    idW marketW (by decide)

/-- C5: in every reachable state, every stored record satisfies
`resolution_block.is_some() == (status == Resolved)`. -/
theorem C5_resolution_block_iff_resolved (cfg : Config) (s : FutarchyState)
    (h : Reachable cfg s) (k : Nat) (m : PredictionMarket)
    (hm : s.markets k = some m) :
    m.resolution_block.isSome = decide (m.status = MarketStatus.Resolved) := by
  have hs := goodState_of_reachable h
  obtain ⟨hc, hrb, _⟩ := hs k m hm
  rw [hc, hrb]
  rfl

/-- Witness for C5 at the concrete reachable state with one market. -/
theorem C5_witness :
    marketW.resolution_block.isSome = decide (marketW.status = MarketStatus.Resolved) :=
  C5_resolution_block_iff_resolved cfgW stW1 reachable_stW1 idW marketW (by decide)

theorem typeCode_inj {t1 t2 : MarketType} (h : typeCode t1 = typeCode t2) :
    t1 = t2 := by
  cases t1 <;> cases t2 <;> first
    | rfl
    | exact absurd h (by decide)

theorem hfnW_injective : ∀ b1 c1 t1 b2 c2 t2,
    cfgW.hfn b1 c1 t1 = cfgW.hfn b2 c2 t2 → b1 = b2 ∧ c1 = c2 ∧ t1 = t2 := by
  intro b1 c1 t1 b2 c2 t2 h
  simp only [cfgW, hfnW] at h
  obtain ⟨hb, hrest⟩ := Nat.pair_eq_pair.mp h
  obtain ⟨hc, ht⟩ := Nat.pair_eq_pair.mp hrest
  exact ⟨hb, hc, typeCode_inj ht⟩

/-- C6: the identifier is a pure function of
`(block, creator, market_type)`: two successful creations with the same
tuple use the same identifier and the second record is what the key then
holds (an overwrite); and, assuming the hash is injective on the encoded
tuples, creations with distinct tuples get distinct identifiers, each of
which looks up exactly the record just created. -/
theorem C6_identifier_derivation (cfg : Config) :
    (∀ blk who mt (s s1 s2 : FutarchyState),
        create_market cfg blk who mt s = Except.ok s1 →
        create_market cfg blk who mt s1 = Except.ok s2 →
        s2.markets (market_id cfg blk who mt) = some (newMarket cfg blk who mt)) ∧
    ((∀ b1 c1 t1 b2 c2 t2, cfg.hfn b1 c1 t1 = cfg.hfn b2 c2 t2 →
        b1 = b2 ∧ c1 = c2 ∧ t1 = t2) →
      ∀ b1 c1 t1 b2 c2 t2, ¬ (b1 = b2 ∧ c1 = c2 ∧ t1 = t2) →
        market_id cfg b1 c1 t1 ≠ market_id cfg b2 c2 t2 ∧
        ∀ (s s1 s2 : FutarchyState),
          create_market cfg b1 c1 t1 s = Except.ok s1 →
          create_market cfg b2 c2 t2 s1 = Except.ok s2 →
          s2.markets (market_id cfg b1 c1 t1) = some (newMarket cfg b1 c1 t1) ∧
          s2.markets (market_id cfg b2 c2 t2) = some (newMarket cfg b2 c2 t2)) := by
  constructor
  · intro blk who mt s s1 s2 h1 h2
    obtain ⟨-, rfl⟩ := create_market_ok_elim h2
    simp [createdState]
  · intro hinj b1 c1 t1 b2 c2 t2 hne
    have hid : market_id cfg b1 c1 t1 ≠ market_id cfg b2 c2 t2 := by
      intro h
      exact hne (hinj b1 c1 t1 b2 c2 t2 h)
    refine ⟨hid, ?_⟩
    intro s s1 s2 h1 h2
    obtain ⟨-, rfl⟩ := create_market_ok_elim h1
    obtain ⟨-, rfl⟩ := create_market_ok_elim h2
    constructor
    · simp [createdState, hid]
    · simp [createdState]

/-- Witness for C6: under the concrete injective pairing hash, creators 0
and 1 at the same block get distinct identifiers and both records are
found after the two creations. -/
theorem C6_witness :
    market_id cfgW 10 0 MarketType.Binary ≠ market_id cfgW 10 1 MarketType.Binary ∧
    ∀ (s s1 s2 : FutarchyState),
      create_market cfgW 10 0 MarketType.Binary s = Except.ok s1 →
      create_market cfgW 10 1 MarketType.Binary s1 = Except.ok s2 →
      s2.markets (market_id cfgW 10 0 MarketType.Binary) =
        some (newMarket cfgW 10 0 MarketType.Binary) ∧
      s2.markets (market_id cfgW 10 1 MarketType.Binary) =
        some (newMarket cfgW 10 1 MarketType.Binary) :=
  (C6_identifier_derivation cfgW).2 hfnW_injective 10 0 MarketType.Binary
    10 1 MarketType.Binary (by simp)

/-- C7: every successful `create_market` inserts, at the derived
identifier, a record with `creator` the caller, the given `market_type`,
`status = Created`, `total_liquidity = 0`, `creation_block` the current
height and `resolution_block = None`, and emits `MarketCreated(creator, id)`. -/
theorem C7_create_market_success_effect (cfg : Config) (blk who : Nat)
    (mt : MarketType) (s s2 : FutarchyState)
    (h : create_market cfg blk who mt s = Except.ok s2) :
    s2.markets (market_id cfg blk who mt) = some
      { id := market_id cfg blk who mt
        creator := who
        market_type := mt
        status := MarketStatus.Created
        total_liquidity := 0
        creation_block := blk
        resolution_block := none } ∧
    s2.events = s.events ++ [Event.MarketCreated who (market_id cfg blk who mt)] := by
  obtain ⟨-, rfl⟩ := create_market_ok_elim h
  exact ⟨by simp [createdState, newMarket], rfl⟩

/-- Witness for C7: the concrete creation at block 10 by account 0. -/
theorem C7_witness :
    stW1.markets (market_id cfgW 10 0 MarketType.Binary) = some
      { id := market_id cfgW 10 0 MarketType.Binary
        creator := 0
        market_type := MarketType.Binary
        status := MarketStatus.Created
        total_liquidity := 0
        creation_block := 10
        resolution_block := none } ∧
    stW1.events = stW0.events ++
      [Event.MarketCreated 0 (market_id cfgW 10 0 MarketType.Binary)] :=
  C7_create_market_success_effect cfgW 10 0 MarketType.Binary stW0 stW1 rfl

/-- C8: in every reachable state, every key in the store maps to exactly
one record whose `id` field equals that key, and both operations preserve
this agreement. -/
theorem C8_key_value_agreement (cfg : Config) (s : FutarchyState)
    (h : Reachable cfg s) :
    (∀ k m, s.markets k = some m → m.id = k) ∧
    ∀ op k m, ((runOp cfg s op).1).markets k = some m → m.id = k := by
  have hs := goodState_of_reachable h
  refine ⟨fun k m hm => (hs k m hm).2.2, fun op k m hm => ?_⟩
  exact ((goodState_runOp op hs) k m hm).2.2

/-- Witness for C8 at the concrete reachable state with one market. -/
theorem C8_witness :
    (∀ k m, stW1.markets k = some m → m.id = k) ∧
    ∀ op k m, ((runOp cfgW stW1 op).1).markets k = some m → m.id = k :=
  C8_key_value_agreement cfgW stW1 reachable_stW1

/-- C9: a successful `resolve_market(id)` changes only the `status` and
`resolution_block` of the record at key `id` — its other fields and every
other key are untouched, as are the counter and the ledger — and any
execution of either operation that fails leaves the whole state unchanged. -/
theorem C9_resolve_frame (blk who mid : Nat) (s : FutarchyState) :
    (∀ s2, resolve_market blk who mid s = Except.ok s2 →
      (∃ m, s.markets mid = some m ∧
        s2.markets mid = some { m with status := MarketStatus.Resolved,
                                       resolution_block := some blk }) ∧
      (∀ k, k ≠ mid → s2.markets k = s.markets k) ∧
      s2.marketCount = s.marketCount ∧ s2.free = s.free ∧ s2.reserved = s.reserved) ∧
    ∀ (cfg : Config) (op : Op) (e : Error), dispatch cfg op s = Except.error e →
      (runOp cfg s op).1 = s := by
  constructor
  · intro s2 h
    obtain ⟨m, hm, ha, rfl⟩ := resolve_market_ok_elim h
    exact ⟨⟨m, hm, by simp [resolvedState]⟩,
      fun k hk => by simp [resolvedState, hk], rfl, rfl, rfl⟩
  · intro cfg op e h
    simp [runOp, h]

/-- Witness for C9: resolving the hand-built `Active` market at key 7
succeeds and exhibits the frame condition. -/
theorem C9_witness :
    (∃ m, stActive.markets 7 = some m ∧
      stActiveRes.markets 7 = some { m with status := MarketStatus.Resolved,
                                            resolution_block := some 5 }) ∧
    (∀ k, k ≠ 7 → stActiveRes.markets k = stActive.markets k) ∧
    stActiveRes.marketCount = stActive.marketCount ∧
    stActiveRes.free = stActive.free ∧ stActiveRes.reserved = stActive.reserved :=
  (C9_resolve_frame 5 2 7 stActive).1 stActiveRes rfl

/-- C10: in every reachable state every stored market has
`status = Created` and `resolution_block = None`, and consequently every
`resolve_market` call fails (with `MarketDoesNotExist` or
`MarketNotResolvable`) and leaves the state unchanged. -/
theorem C10_reachable_states_unresolvable (cfg : Config) (s : FutarchyState)
    (h : Reachable cfg s) (blk who mid : Nat) :
    (∀ k m, s.markets k = some m →
       m.status = MarketStatus.Created ∧ m.resolution_block = none) ∧
    (∃ e, resolve_market blk who mid s = Except.error e ∧
       (e = Error.MarketDoesNotExist ∨ e = Error.MarketNotResolvable)) ∧
    (runOp cfg s (Op.resolve blk who mid)).1 = s := by
  have hs := goodState_of_reachable h
  exact ⟨fun k m hm => ⟨(hs k m hm).1, (hs k m hm).2.1⟩,
    resolve_fails_of_goodState hs blk who mid,
    runOp_resolve_of_goodState hs blk who mid⟩

/-- Witness for C10: after the concrete creation, resolving the created
market's own identifier fails and changes nothing. -/
theorem C10_witness :
    (∀ k m, stW1.markets k = some m →
       m.status = MarketStatus.Created ∧ m.resolution_block = none) ∧
    (∃ e, resolve_market 11 0 idW stW1 = Except.error e ∧
       (e = Error.MarketDoesNotExist ∨ e = Error.MarketNotResolvable)) ∧
    (runOp cfgW stW1 (Op.resolve 11 0 idW)).1 = stW1 :=
  C10_reachable_states_unresolvable cfgW stW1 reachable_stW1 11 0 idW

end Futarchy
